import Mathlib

/-!
Verification development for the MCP OAuth client repository.

The definitions below are shallow embeddings of the TypeScript sources:
`src/oauth-client.ts` (challenge parsing, discovery, PKCE),
`src/token-manager.ts` (token store), `src/oauth-http-transport.ts`
(token acquisition flow) and the MCP connection cache (`mcp_tool`).

Strings are modelled as Lean `String` / `List Char`; JavaScript numbers
(`Date.now()` timestamps, `expires_in` seconds) as `Nat`; JavaScript
truthiness of strings/numbers is modelled explicitly (`""` and `0` are
falsy).  The two regular expressions of `oauth-client.ts` are embedded as
executable scanning functions that follow the JS regex engine semantics
for these particular patterns (leftmost match, greedy classes that cannot
usefully backtrack, the lazy `(.+?)` group together with the giving-back
of `\s+`, and the `(?=...)` lookahead).  The dot in the scheme regex does
not match line terminators; the whitespace class is modelled by the
characters of the JS `\s` class that can occur in header values.
-/

/-- Character class `[a-zA-Z]` of the source regexes. -/
def isAlphaChar (c : Char) : Bool :=
  (65 ≤ c.toNat && c.toNat ≤ 90) || (97 ≤ c.toNat && c.toNat ≤ 122)

/-- Character class `[0-9]`. -/
def isDigitChar (c : Char) : Bool :=
  48 ≤ c.toNat && c.toNat ≤ 57

/-- Character class `[a-zA-Z0-9_+-]` used for auth scheme names. -/
def isSchemeChar (c : Char) : Bool :=
  isAlphaChar c || isDigitChar c || c = '_' || c = '+' || c = '-'

/-- Character class `[a-zA-Z0-9_-]` used for parameter keys. -/
def isKeyChar (c : Char) : Bool :=
  isAlphaChar c || isDigitChar c || c = '_' || c = '-'

/-- The JS `\s` class (restricted to characters that occur in header values). -/
def isWsChar (c : Char) : Bool :=
  c = ' ' || c = '\t' || c = '\n' || c = '\r' ||
  c.toNat = 11 || c.toNat = 12 || c.toNat = 160 || c.toNat = 65279

/-- Line terminators, which the JS `.` does not match. -/
def isNlChar (c : Char) : Bool :=
  c.toNat = 10 || c.toNat = 13 || c.toNat = 8232 || c.toNat = 8233

/-- Characters an unquoted parameter value may contain: `[^,\s]`. -/
def isUnquotedChar (c : Char) : Bool :=
  !(c = ',') && !isWsChar c

/-- Is the next character not a double quote?  The class `[^"]` of the
quoted-value alternative. -/
def isNotQuote (c : Char) : Bool :=
  !(c = '"')

section LengthHelpers

theorem length_dropWhile_le (p : Char → Bool) (cs : List Char) :
    (cs.dropWhile p).length ≤ cs.length := by
  induction cs with
  | nil => simp [List.dropWhile]
  | cons c rest ih =>
    by_cases hp : p c
    · rw [List.dropWhile_cons_of_pos hp]
      simp only [List.length_cons]
      omega
    · rw [List.dropWhile_cons_of_neg hp]

theorem length_dropWhile_lt_of_takeWhile_ne_nil {p : Char → Bool} {cs : List Char}
    (h : cs.takeWhile p ≠ []) : (cs.dropWhile p).length < cs.length := by
  cases cs with
  | nil => simp [List.takeWhile] at h
  | cons c rest =>
    by_cases hp : p c
    · rw [List.dropWhile_cons_of_pos hp]
      have := length_dropWhile_le p rest
      simp only [List.length_cons]
      omega
    · rw [List.takeWhile_cons_of_neg hp] at h
      exact absurd rfl h

theorem takeWhile_add_dropWhile_length (p : Char → Bool) (cs : List Char) :
    (cs.takeWhile p).length + (cs.dropWhile p).length = cs.length := by
  conv_rhs => rw [← List.takeWhile_append_dropWhile p cs]
  rw [List.length_append]

end LengthHelpers

/-- Does `,\s*[a-zA-Z][a-zA-Z0-9_+-]*\s` match a prefix of the input?  This is
the lookahead of the scheme regex in `parseAuthChallenges`; the greedy
classes in it admit no useful backtracking, so the test is deterministic. -/
def boundaryMatch : List Char → Bool
  | [] => false
  | c :: rest =>
    c = ',' &&
      (match rest.dropWhile isWsChar with
       | [] => false
       | d :: rest2 =>
         isAlphaChar d &&
           (match rest2.dropWhile isSchemeChar with
            | [] => false
            | e :: _ => isWsChar e))

/-- The lazy part of `(.+?)(?=(?:,\s*[a-zA-Z][a-zA-Z0-9_+-]*\s)|$)` after the
first character has been consumed: stop at the earliest position where the
lookahead matches, or at the end of the input; fail (`none`) if a line
terminator is reached first, since `.` cannot match it. -/
def lazyStop : List Char → Option (List Char × List Char)
  | [] => some ([], [])
  | c :: rest =>
    if boundaryMatch (c :: rest) then some ([], c :: rest)
    else if isNlChar c then none
    else
      match lazyStop rest with
      | some (t, r) => some (c :: t, r)
      | none => none

theorem lazyStop_length {cs t r : List Char} (h : lazyStop cs = some (t, r)) :
    r.length ≤ cs.length := by
  induction cs generalizing t with
  | nil => simp [lazyStop] at h; simp [h.2]
  | cons c rest ih =>
    simp only [lazyStop] at h
    split at h
    · injection h with h1; injection h1 with ht hr; simp [← hr]
    · split at h
      · exact absurd h (by simp)
      · cases hrec : lazyStop rest with
        | none => rw [hrec] at h; exact absurd h (by simp)
        | some p =>
          obtain ⟨t2, r2⟩ := p
          rw [hrec] at h
          injection h with h1; injection h1 with ht hr
          subst hr
          have := ih (t := t2) hrec
          simp only [List.length_cons]
          omega

/-- The group `(.+?)` with its lookahead: consume at least one (non line
terminator) character, then stop as early as possible. -/
def lazyTake : List Char → Option (List Char × List Char)
  | [] => none
  | c :: rest =>
    if isNlChar c then none
    else
      match lazyStop rest with
      | some (t, r) => some (c :: t, r)
      | none => none

theorem lazyTake_length {cs t r : List Char} (h : lazyTake cs = some (t, r)) :
    r.length < cs.length := by
  cases cs with
  | nil => simp [lazyTake] at h
  | cons c rest =>
    simp only [lazyTake] at h
    split at h
    · exact absurd h (by simp)
    · cases hrec : lazyStop rest with
      | none => rw [hrec] at h; exact absurd h (by simp)
      | some p =>
        obtain ⟨t2, r2⟩ := p
        rw [hrec] at h
        injection h with h1; injection h1 with ht hr
        subst hr
        have := lazyStop_length hrec
        simp only [List.length_cons]
        omega

/-- Backtracking of the greedy `\s+` before the lazy group: with `ws` the
maximal whitespace run, the engine tries `\s+` = `m` characters for
`m = ws.length` down to `1`, handing the rest to the lazy group. -/
def tryKsGo (ws tail : List Char) : Nat → Option (List Char × List Char)
  | 0 => none
  | m + 1 =>
    match lazyTake (ws.drop (m + 1) ++ tail) with
    | some x => some x
    | none => tryKsGo ws tail m

/-- All `\s+` split attempts of the scheme regex, longest `\s+` first. -/
def tryKs (ws tail : List Char) : Option (List Char × List Char) :=
  tryKsGo ws tail ws.length

theorem tryKsGo_length {ws tail t r : List Char} {m : Nat}
    (h : tryKsGo ws tail m = some (t, r)) : r.length < ws.length + tail.length := by
  induction m with
  | zero => simp [tryKsGo] at h
  | succ m ih =>
    simp only [tryKsGo] at h
    cases hl : lazyTake (ws.drop (m + 1) ++ tail) with
    | none => rw [hl] at h; exact ih h
    | some p =>
      obtain ⟨t2, r2⟩ := p
      rw [hl] at h
      injection h with h1
      obtain ⟨ht, hr⟩ : t2 = t ∧ r2 = r := by
        constructor <;> [exact congrArg Prod.fst h1; exact congrArg Prod.snd h1]
      subst hr
      have hlen := lazyTake_length hl
      have : (ws.drop (m + 1)).length ≤ ws.length := by
        simp [List.length_drop]
      simp [List.length_append] at hlen
      omega

/-- The leading `(?:^|,\s*)` of the scheme regex: at position 0 the empty
alternative applies unless the text starts with a comma (an alphabetic
scheme char must follow, so the anchors never overlap); elsewhere only the
comma alternative can match. -/
def afterChalPrefix (atStart : Bool) (cs : List Char) : Option (List Char) :=
  match cs with
  | [] => if atStart then some [] else none
  | c :: rest =>
    if c = ',' then some (rest.dropWhile isWsChar)
    else if atStart then some (c :: rest) else none

theorem afterChalPrefix_length {atStart : Bool} {cs ds : List Char}
    (h : afterChalPrefix atStart cs = some ds) : ds.length ≤ cs.length := by
  match cs with
  | [] =>
    simp only [afterChalPrefix] at h
    split at h
    · injection h with h1; simp [← h1]
    · exact absurd h (by simp)
  | c :: rest =>
    simp only [afterChalPrefix] at h
    split at h
    · injection h with h1
      subst h1
      have := length_dropWhile_le isWsChar rest
      simp only [List.length_cons]
      omega
    · split at h
      · injection h with h1; simp [← h1]
      · exact absurd h (by simp)

/-- The alternative `([^,\s]+)` of the parameter regex: a non-empty maximal
run of unquoted-value characters. -/
def unquotedMatch (cs : List Char) : Option (String × List Char) :=
  if (cs.takeWhile isUnquotedChar).isEmpty then none
  else some (String.mk (cs.takeWhile isUnquotedChar), cs.dropWhile isUnquotedChar)

theorem unquotedMatch_length {cs : List Char} {v : String} {r : List Char}
    (h : unquotedMatch cs = some (v, r)) : r.length < cs.length := by
  simp only [unquotedMatch] at h
  split at h
  · exact absurd h (by simp)
  · injection h with h1
    have hr : r = cs.dropWhile isUnquotedChar := (congrArg Prod.snd h1).symm
    subst hr
    rename_i hne
    exact length_dropWhile_lt_of_takeWhile_ne_nil (by simpa [List.isEmpty_iff] using hne)

/-- The alternation `(?:"([^"]*)"|([^,\s]+))` of the parameter regex.  The
quoted branch matches only when a closing quote exists (the greedy `[^"]*`
stops at the first quote); otherwise the engine falls back to the unquoted
branch at the same position. -/
def valueMatch (cs : List Char) : Option (String × List Char) :=
  match cs with
  | [] => unquotedMatch []
  | c :: r5 =>
    if c = '"' then
      if r5.contains '"' then
        some (String.mk (r5.takeWhile isNotQuote), (r5.dropWhile isNotQuote).drop 1)
      else unquotedMatch (c :: r5)
    else unquotedMatch (c :: r5)

theorem valueMatch_length {cs : List Char} {v : String} {r : List Char}
    (h : valueMatch cs = some (v, r)) : r.length < cs.length := by
  match cs with
  | [] =>
    simp only [valueMatch, unquotedMatch] at h
    simp [List.takeWhile] at h
  | c :: r5 =>
    simp only [valueMatch] at h
    split at h
    · split at h
      · injection h with h1
        have hr : r = (r5.dropWhile isNotQuote).drop 1 := (congrArg Prod.snd h1).symm
        subst hr
        have h2 := length_dropWhile_le isNotQuote r5
        have h3 : ((r5.dropWhile isNotQuote).drop 1).length ≤ (r5.dropWhile isNotQuote).length := by
          simp [List.length_drop]
        simp only [List.length_cons]
        omega
      · exact unquotedMatch_length h
    · exact unquotedMatch_length h

/-- A single match of the parameter regex
`([a-zA-Z][a-zA-Z0-9_-]*)\s*=\s*(?:"([^"]*)"|([^,\s]+))` at the head of the
input: key, optional whitespace, `=`, optional whitespace, then a quoted or
unquoted value.  The greedy key and whitespace runs admit no useful
backtracking, so the match is deterministic. -/
def tryParam (cs : List Char) : Option ((String × String) × List Char) :=
  match cs with
  | [] => none
  | c :: rest =>
    if isAlphaChar c then
      match (rest.dropWhile isKeyChar).dropWhile isWsChar with
      | [] => none
      | d :: r3 =>
        if d = '=' then
          match valueMatch (r3.dropWhile isWsChar) with
          | some (v, r) => some ((String.mk (c :: rest.takeWhile isKeyChar), v), r)
          | none => none
        else none
    else none

theorem tryParam_length {cs : List Char} {p : String × String} {r : List Char}
    (h : tryParam cs = some (p, r)) : r.length < cs.length := by
  match cs with
  | [] => simp [tryParam] at h
  | c :: rest =>
    simp only [tryParam] at h
    split at h
    · split at h
      · exact absurd h (by simp)
      · rename_i d r3 hd
        have hr3 : r3.length < rest.length := by
          have h1 : (d :: r3).length ≤ (rest.dropWhile isKeyChar).length := by
            rw [← hd]; exact length_dropWhile_le _ _
          have h2 := length_dropWhile_le isKeyChar rest
          simp only [List.length_cons] at h1
          omega
        split at h
        · split at h
          · rename_i v r2 hv
            injection h with h1
            have hr : r2 = r := congrArg Prod.snd h1
            subst hr
            have h4 := valueMatch_length hv
            have h5 := length_dropWhile_le isWsChar r3
            simp only [List.length_cons]
            omega
          · exact absurd h (by simp)
        · exact absurd h (by simp)
    · exact absurd h (by simp)

/-- The scan loop of `parseWwwAuthParams`: repeatedly `exec` the parameter
regex; a failed attempt advances one character (the engine searches for the
next match position), a successful one continues at the end of the match.
The first argument is a structural-recursion budget; every step consumes at
least one character of `cs` (`tryParam_length`), so a budget of `cs` itself
never runs out (`paramScanGo_fuel_irrelevant` and the step equations
`paramScan_cons` below make this precise). -/
def paramScanGo : List Char → List Char → List (String × String)
  | [], _ => []
  | _ :: fuel, cs =>
    match cs with
    | [] => []
    | c :: rest =>
      match tryParam (c :: rest) with
      | some (p, r) => p :: paramScanGo fuel r
      | none => paramScanGo fuel rest

/-- The parameter scan loop at its sufficient budget. -/
def paramScan (cs : List Char) : List (String × String) :=
  paramScanGo cs cs

theorem paramScanGo_fuel_irrelevant :
    ∀ (n : Nat) (fuel1 fuel2 cs : List Char), cs.length ≤ n →
      cs.length ≤ fuel1.length → cs.length ≤ fuel2.length →
      paramScanGo fuel1 cs = paramScanGo fuel2 cs := by
  intro n
  induction n with
  | zero =>
    intro fuel1 fuel2 cs hn h1 h2
    have : cs = [] := List.length_eq_zero.mp (by omega)
    subst this
    cases fuel1 <;> cases fuel2 <;> rfl
  | succ n ih =>
    intro fuel1 fuel2 cs hn h1 h2
    cases cs with
    | nil => cases fuel1 <;> cases fuel2 <;> rfl
    | cons c rest =>
      cases fuel1 with
      | nil => simp at h1
      | cons f1 fuel1 =>
        cases fuel2 with
        | nil => simp at h2
        | cons f2 fuel2 =>
          simp only [paramScanGo]
          cases htp : tryParam (c :: rest) with
          | some pr =>
            obtain ⟨p, r⟩ := pr
            have hr := tryParam_length htp
            simp only [List.length_cons] at hr h1 h2 hn
            show p :: paramScanGo fuel1 r = p :: paramScanGo fuel2 r
            rw [ih fuel1 fuel2 r (by omega) (by omega) (by omega)]
          | none =>
            simp only [List.length_cons] at h1 h2 hn
            show paramScanGo fuel1 rest = paramScanGo fuel2 rest
            exact ih fuel1 fuel2 rest (by omega) (by omega) (by omega)

theorem paramScan_nil : paramScan [] = [] := rfl

/-- The loop recurrence of the parameter scan, as the source `exec` loop
steps: a match emits its pair and resumes at the match end, a failure
advances one character. -/
theorem paramScan_cons (c : Char) (rest : List Char) :
    paramScan (c :: rest) =
      match tryParam (c :: rest) with
      | some (p, r) => p :: paramScan r
      | none => paramScan rest := by
  show paramScanGo (c :: rest) (c :: rest) = _
  simp only [paramScanGo]
  cases htp : tryParam (c :: rest) with
  | some pr =>
    obtain ⟨p, r⟩ := pr
    have hr := tryParam_length htp
    simp only [List.length_cons] at hr
    show p :: paramScanGo rest r = p :: paramScan r
    rw [paramScanGo_fuel_irrelevant r.length rest r r (by omega) (by omega) (by omega)]
    rfl
  | none => rfl

/-- Parameters are collected into a JS `Map` by `params.set(key, value)`:
a later binding for the same key overwrites an earlier one, so lookup
returns the value of the last matching binding. -/
def getParam (ps : List (String × String)) (k : String) : Option String :=
  ps.reverse.lookup k

/-- The JS `Map.get` used on `parseWwwAuthParams` output, as the source
`parseWwwAuthParams` returns the populated map itself. -/
def parseWwwAuthParams (paramString : String) : List (String × String) :=
  paramScan paramString.data

/-- One attempt of the scheme regex
`(?:^|,\s*)([a-zA-Z][a-zA-Z0-9_+-]*)\s+(.+?)(?=(?:,\s*[a-zA-Z][a-zA-Z0-9_+-]*\s)|$)`
at the head of the input: the optional comma prefix, the scheme token, at
least one whitespace character, then the lazily matched parameter text.
On success, returns the challenge (scheme together with the parameters
parsed from the matched text by `parseWwwAuthParams`) and the rest of the
input after the match. -/
def tryChallenge (atStart : Bool) (cs : List Char) :
    Option ((String × List (String × String)) × List Char) :=
  match afterChalPrefix atStart cs with
  | none => none
  | some [] => none
  | some (c :: ds1) =>
    if isAlphaChar c then
      let ds2 := ds1.dropWhile isSchemeChar
      match tryKs (ds2.takeWhile isWsChar) (ds2.dropWhile isWsChar) with
      | some (ptext, r) =>
        some ((String.mk (c :: ds1.takeWhile isSchemeChar), paramScan ptext), r)
      | none => none
    else none

theorem tryChallenge_length {atStart : Bool} {cs : List Char}
    {ch : String × List (String × String)} {r : List Char}
    (h : tryChallenge atStart cs = some (ch, r)) : r.length < cs.length := by
  simp only [tryChallenge] at h
  split at h
  · exact absurd h (by simp)
  · exact absurd h (by simp)
  · rename_i c ds1 hpre
    split at h
    · split at h
      · rename_i ptext r2 hks
        injection h with h1
        have hr : r2 = r := congrArg Prod.snd h1
        subst hr
        have h1 := tryKsGo_length hks
        have h2 := takeWhile_add_dropWhile_length isWsChar (ds1.dropWhile isSchemeChar)
        have h3 := length_dropWhile_le isSchemeChar ds1
        have h4 := afterChalPrefix_length hpre
        simp only [List.length_cons] at h4
        omega
      · exact absurd h (by simp)
    · exact absurd h (by simp)

/-- The `exec` loop of `parseAuthChallenges` over the scheme regex: a failed
attempt advances one character, a successful one emits the challenge and
continues where the match ended (where its lookahead stopped).  As with
`paramScanGo`, the first argument is a structural-recursion budget that a
budget of `cs` itself never exhausts (`tryChallenge_length`). -/
def schemeScanGo : List Char → Bool → List Char → List (String × List (String × String))
  | [], _, _ => []
  | _ :: fuel, atStart, cs =>
    match cs with
    | [] => []
    | c :: rest =>
      match tryChallenge atStart (c :: rest) with
      | some (ch, r) => ch :: schemeScanGo fuel false r
      | none => schemeScanGo fuel false rest

/-- The challenge scan loop at its sufficient budget. -/
def schemeScan (atStart : Bool) (cs : List Char) :
    List (String × List (String × String)) :=
  schemeScanGo cs atStart cs

theorem schemeScanGo_fuel_irrelevant :
    ∀ (n : Nat) (fuel1 fuel2 : List Char) (atStart : Bool) (cs : List Char),
      cs.length ≤ n → cs.length ≤ fuel1.length → cs.length ≤ fuel2.length →
      schemeScanGo fuel1 atStart cs = schemeScanGo fuel2 atStart cs := by
  intro n
  induction n with
  | zero =>
    intro fuel1 fuel2 atStart cs hn h1 h2
    have : cs = [] := List.length_eq_zero.mp (by omega)
    subst this
    cases fuel1 <;> cases fuel2 <;> rfl
  | succ n ih =>
    intro fuel1 fuel2 atStart cs hn h1 h2
    cases cs with
    | nil => cases fuel1 <;> cases fuel2 <;> rfl
    | cons c rest =>
      cases fuel1 with
      | nil => simp at h1
      | cons f1 fuel1 =>
        cases fuel2 with
        | nil => simp at h2
        | cons f2 fuel2 =>
          simp only [schemeScanGo]
          cases htc : tryChallenge atStart (c :: rest) with
          | some pr =>
            obtain ⟨ch, r⟩ := pr
            have hr := tryChallenge_length htc
            simp only [List.length_cons] at hr h1 h2 hn
            show ch :: schemeScanGo fuel1 false r = ch :: schemeScanGo fuel2 false r
            rw [ih fuel1 fuel2 false r (by omega) (by omega) (by omega)]
          | none =>
            simp only [List.length_cons] at h1 h2 hn
            show schemeScanGo fuel1 false rest = schemeScanGo fuel2 false rest
            exact ih fuel1 fuel2 false rest (by omega) (by omega) (by omega)

theorem schemeScan_nil (atStart : Bool) : schemeScan atStart [] = [] := rfl

/-- The loop recurrence of the challenge scan. -/
theorem schemeScan_cons (atStart : Bool) (c : Char) (rest : List Char) :
    schemeScan atStart (c :: rest) =
      match tryChallenge atStart (c :: rest) with
      | some (ch, r) => ch :: schemeScan false r
      | none => schemeScan false rest := by
  show schemeScanGo (c :: rest) atStart (c :: rest) = _
  simp only [schemeScanGo]
  cases htc : tryChallenge atStart (c :: rest) with
  | some pr =>
    obtain ⟨ch, r⟩ := pr
    have hr := tryChallenge_length htc
    simp only [List.length_cons] at hr
    show ch :: schemeScanGo rest false r = ch :: schemeScan false r
    rw [schemeScanGo_fuel_irrelevant r.length rest r false r (by omega) (by omega) (by omega)]
    rfl
  | none => rfl

/-- Case-insensitive prefix test, for `toLowerCase().startsWith('bearer')`. -/
def leadsWith : List Char → List Char → Bool
  | [], _ => true
  | _ :: _, [] => false
  | p :: ps, c :: cs => p = c && leadsWith ps cs

/-- The JS `String.prototype.trim`, which strips `\s` characters from both
ends. -/
def trimWs (cs : List Char) : List Char :=
  ((cs.dropWhile isWsChar).reverse.dropWhile isWsChar).reverse

/-- Embedding of `OAuthClient.parseAuthChallenges`: run the scheme regex over
the header; if nothing matched and the header starts (case-insensitively)
with `bearer`, fall back to a single Bearer challenge whose parameters are
parsed from everything after the first six characters, trimmed. -/
def parseAuthChallenges (header : String) : List (String × List (String × String)) :=
  let cs := header.data
  let chals := schemeScan true cs
  if chals.isEmpty then
    if leadsWith "bearer".data (cs.map Char.toLower) then
      [("Bearer", paramScan (trimWs (cs.drop 6)))]
    else []
  else chals

/-- Embedding of `OAuthClient.extractMetadataUrlFromWwwAuth`: the
`resource_metadata` value of the first Bearer challenge (case-insensitive
scheme comparison) in which that parameter is present with a truthy
(non-empty) value. -/
def extractMetadataUrlFromWwwAuth (header : String) : Option String :=
  go (parseAuthChallenges header)
where
  go : List (String × List (String × String)) → Option String
    | [] => none
    | ch :: rest =>
      if String.mk (ch.1.data.map Char.toLower) = "bearer" then
        match getParam ch.2 "resource_metadata" with
        | some v => if v = "" then go rest else some v
        | none => go rest
      else go rest

/-!
Embedding of `src/token-manager.ts`.  The in-memory `Map<string, StoredToken>`
is modelled as an association list with unique keys maintained by
`mapSet` (JS `Map.set` replaces in place, keeping insertion order);
`Date.now()` instants and `expires_in` seconds are `Nat`s.  The file
persistence (`saveTokens`) mirrors the map and does not affect the map
itself, so it is not part of the state model.
-/

/-- The `TokenResponse` of `oauth-client.ts` (fields that `token-manager.ts`
reads).  `expires_in` is in seconds; optional fields are `Option`s. -/
structure TokenResponse where
  access_token : String
  token_type : String
  expires_in : Option Nat
  refresh_token : Option String
  scope : Option String
  deriving DecidableEq, Repr

/-- The `StoredToken` record of `token-manager.ts`. -/
structure StoredToken where
  access_token : String
  token_type : String
  expires_at : Option Nat
  refresh_token : Option String
  scope : Option String
  resource : String
  client_id : String
  authorization_server : String
  deriving DecidableEq, Repr

/-- JS `Map.set`: replace the binding in place if the key is present,
otherwise append it. -/
def mapSet {α : Type} (m : List (String × α)) (k : String) (v : α) : List (String × α) :=
  match m with
  | [] => [(k, v)]
  | (k2, v2) :: rest => if k2 = k then (k, v) :: rest else (k2, v2) :: mapSet rest k v

/-- JS `Map.delete`: remove the binding for the key, if any. -/
def mapDelete {α : Type} (m : List (String × α)) (k : String) : List (String × α) :=
  match m with
  | [] => []
  | (k2, v2) :: rest => if k2 = k then rest else (k2, v2) :: mapDelete rest k

/-- Embedding of `TokenManager.generateTokenKey`:
`` `${resource}:${clientId}:${authServer}` ``. -/
def generateTokenKey (resource clientId authServer : String) : String :=
  resource ++ ":" ++ clientId ++ ":" ++ authServer

/-- The token cache state of a `TokenManager`. -/
def TokenCache : Type := List (String × StoredToken)

/-- Lookup of the record stored under a triple (the `tokenCache.get(key)` the
manager performs after `generateTokenKey`). -/
def getStoredRecord (m : TokenCache) (resource clientId authServer : String) :
    Option StoredToken :=
  List.lookup (generateTokenKey resource clientId authServer) m

/-- Embedding of `TokenManager.storeToken` (the cache mutation; `saveTokens`
mirrors the cache to disk and does not change it).  `expires_at` is set to
`now + expires_in * 1000` only when `expires_in` is present and truthy
(nonzero). -/
def storeToken (m : TokenCache) (tr : TokenResponse)
    (resource clientId authServer : String) (now : Nat) : TokenCache :=
  let expiresAt : Option Nat :=
    match tr.expires_in with
    | some n => if n = 0 then none else some (now + n * 1000)
    | none => none
  mapSet m (generateTokenKey resource clientId authServer)
    { access_token := tr.access_token
      token_type := tr.token_type
      expires_at := expiresAt
      refresh_token := tr.refresh_token
      scope := tr.scope
      resource := resource
      client_id := clientId
      authorization_server := authServer }

/-- Embedding of `TokenManager.getValidToken`.  The guard
`token.expires_at && Date.now() >= token.expires_at` is JS-truthy: an
absent or zero `expires_at` never triggers it.  The call reads the cache
and never mutates it, which the returned (unchanged) cache makes explicit. -/
def getValidToken (m : TokenCache) (resource clientId authServer : String)
    (now : Nat) : Option StoredToken × TokenCache :=
  match List.lookup (generateTokenKey resource clientId authServer) m with
  | none => (none, m)
  | some tok =>
    match tok.expires_at with
    | some e => if e ≠ 0 ∧ now ≥ e then (none, m) else (some tok, m)
    | none => (some tok, m)

/-- Embedding of `TokenManager.getAllTokens`: `Array.from(tokenCache.values())`. -/
def getAllTokens (m : TokenCache) : List StoredToken :=
  m.map Prod.snd

/-- Embedding of the step 5 / step 6 decision of
`OAuthTransportFactory.getOrObtainAccessToken`: with no existing valid
token (step 5), the flow re-reads the store (step 6) and enters the
refresh branch only when that second read yields a record with a truthy
`refresh_token` (`expiredToken?.refresh_token`). -/
def refreshBranchTaken (m : TokenCache) (resource clientId authServer : String)
    (now1 now2 : Nat) : Bool :=
  match (getValidToken m resource clientId authServer now1).1 with
  | some _ => false
  | none =>
    match (getValidToken m resource clientId authServer now2).1 with
    | some tok =>
      match tok.refresh_token with
      | some s => !(s = "")
      | none => false
    | none => false

/-!
Embedding of the discovery code of `src/oauth-client.ts`.  URLs are
modelled by their parsed parts (`origin` and `pathname`), since the code
only ever combines `url.origin`, `url.pathname` and fixed path strings;
the network is a value of a `World` structure mapping request URLs to
responses, so that a run of the engine is a pure function that also
reports, in order, the URLs it requested.
-/

/-- A parsed URL: its origin and its path (what `new URL` exposes). -/
structure UrlParts where
  origin : String
  pathname : String
  deriving DecidableEq, Repr

/-- The whole URL string, as passed to `fetch(serverUrl)`. -/
def UrlParts.full (u : UrlParts) : String :=
  u.origin ++ u.pathname

/-- The non-empty path segments of a URL:
`pathname.split('/').filter(s => s.length > 0)`. -/
def UrlParts.pathSegments (u : UrlParts) : List String :=
  (u.pathname.splitOn "/").filter (fun s => !(s = ""))

/-- A `ProtectedResourceMetadata` body as far as the engine inspects it: a
missing `authorization_servers` and an empty one are both refuted by the
`metadata.authorization_servers && metadata.authorization_servers.length > 0`
check, so both are modelled by `[]`. -/
structure PRMeta where
  authorization_servers : List String
  deriving DecidableEq, Repr

/-- The network as `discoverProtectedResourceMetadata` sees it.
`fetchMeta url` models a plain `fetch(url)` of a metadata document:
`some m` when the response is OK and the body parses, `none` for a thrown
fetch, a non-OK status or an unparseable body (all handled alike by the
source).  `fetchResource url` models the step-2 `GET` of the resource URL
itself: `none` for a thrown fetch, otherwise the status and the value of
the `www-authenticate` header. -/
structure DiscWorld where
  fetchMeta : String → Option PRMeta
  fetchResource : String → Option (Nat × Option String)

/-- The fallback paths of step 3, in order. -/
def fallbackPaths (u : UrlParts) : List String :=
  ["/.well-known/oauth-protected-resource",
   "/.well-known/oauth-protected-resource/"] ++
  (if u.pathSegments.isEmpty then []
   else
     [ "/.well-known/oauth-protected-resource/" ++ String.intercalate "/" u.pathSegments,
       "/.well-known/oauth-protected-resource/" ++ String.intercalate "/" u.pathSegments ++ "/"])

/-- Step 3 of `discoverProtectedResourceMetadata`: try each fallback path at
the resource origin, returning the first OK, parseable body with a
non-empty `authorization_servers`.  `acc` is the list of URLs requested so
far. -/
def discoverStep3 (w : DiscWorld) (origin : String) (paths : List String)
    (acc : List String) : Option PRMeta × List String :=
  match paths with
  | [] => (none, acc)
  | p :: rest =>
    let url := origin ++ p
    match w.fetchMeta url with
    | some m =>
      if m.authorization_servers.isEmpty then discoverStep3 w origin rest (acc ++ [url])
      else (some m, acc ++ [url])
    | none => discoverStep3 w origin rest (acc ++ [url])

/-- Step 2 of `discoverProtectedResourceMetadata`: `GET` the resource URL; on
a 401 with a truthy `WWW-Authenticate` header, extract a metadata URL via
the challenge parser and fetch it; every failure falls through to step 3. -/
def discoverStep2 (w : DiscWorld) (u : UrlParts) (acc : List String) :
    Option PRMeta × List String :=
  let su := u.full
  match w.fetchResource su with
  | none => discoverStep3 w u.origin (fallbackPaths u) (acc ++ [su])
  | some (status, hdr) =>
    if status = 401 then
      match hdr with
      | some h =>
        if h = "" then discoverStep3 w u.origin (fallbackPaths u) (acc ++ [su])
        else
          match extractMetadataUrlFromWwwAuth h with
          | some mu =>
            match w.fetchMeta mu with
            | some m =>
              if m.authorization_servers.isEmpty then
                discoverStep3 w u.origin (fallbackPaths u) (acc ++ [su, mu])
              else (some m, acc ++ [su, mu])
            | none => discoverStep3 w u.origin (fallbackPaths u) (acc ++ [su, mu])
          | none => discoverStep3 w u.origin (fallbackPaths u) (acc ++ [su])
      | none => discoverStep3 w u.origin (fallbackPaths u) (acc ++ [su])
    else discoverStep3 w u.origin (fallbackPaths u) (acc ++ [su])

/-- Embedding of `OAuthClient.discoverProtectedResourceMetadata`: step 1
fetches `/.well-known/oauth-protected-resource` at the resource origin and
returns its body when it is OK, parses and has a non-empty
`authorization_servers`; otherwise steps 2 and 3 follow.  Also returns the
request URLs issued, in order. -/
def discoverProtectedResourceMetadata (w : DiscWorld) (u : UrlParts) :
    Option PRMeta × List String :=
  let url1 := u.origin ++ "/.well-known/oauth-protected-resource"
  match w.fetchMeta url1 with
  | some m =>
    if m.authorization_servers.isEmpty then discoverStep2 w u [url1]
    else (some m, [url1])
  | none => discoverStep2 w u [url1]

/-- An `AuthorizationServerMetadata` body as received from the network: the
cast in the source does not validate, so every field the validator reads
is optional here. -/
structure ASMeta where
  issuer : Option String
  authorization_endpoint : Option String
  token_endpoint : Option String
  registration_endpoint : Option String
  code_challenge_methods_supported : Option (List String)
  deriving DecidableEq, Repr

/-- JS truthiness of an optional string: `undefined` and `""` are falsy. -/
def truthyS : Option String → Bool
  | some s => !(s = "")
  | none => false

/-- Embedding of `OAuthClient.validateAuthServerMetadata` as a predicate:
the source throws (and the discovery loop moves on) exactly when this is
false.  An absent `code_challenge_methods_supported` and one without
`"S256"` both fail the PKCE check. -/
def validateAuthServerMetadata (m : ASMeta) : Bool :=
  truthyS m.authorization_endpoint && truthyS m.token_endpoint &&
    (match m.code_challenge_methods_supported with
     | some l => l.contains "S256"
     | none => false)

/-- Embedding of `OAuthClient.buildDiscoveryEndpoints`. -/
def buildDiscoveryEndpoints (u : UrlParts) : List String :=
  if u.pathSegments.isEmpty then
    [u.origin ++ "/.well-known/oauth-authorization-server",
     u.origin ++ "/.well-known/openid-configuration"]
  else
    [u.origin ++ "/.well-known/oauth-authorization-server/" ++ String.intercalate "/" u.pathSegments,
     u.origin ++ "/.well-known/openid-configuration/" ++ String.intercalate "/" u.pathSegments,
     u.origin ++ "/" ++ String.intercalate "/" u.pathSegments ++ "/.well-known/openid-configuration"]

/-- The network as `discoverAuthorizationServer` sees it: `some m` when the
response is OK and the body parses, `none` otherwise. -/
structure ASWorld where
  fetchAS : String → Option ASMeta

/-- The candidate loop of `discoverAuthorizationServer`: validation failure
throws inside the `try`, is caught, and the loop continues with the next
endpoint; exhaustion yields the aggregate discovery error (`none`). -/
def discoverASLoop (w : ASWorld) (endpoints : List String) : Option ASMeta :=
  match endpoints with
  | [] => none
  | e :: rest =>
    match w.fetchAS e with
    | some m => if validateAuthServerMetadata m then some m else discoverASLoop w rest
    | none => discoverASLoop w rest

/-- Embedding of `OAuthClient.discoverAuthorizationServer`. -/
def discoverAuthorizationServer (w : ASWorld) (issuer : UrlParts) : Option ASMeta :=
  discoverASLoop w (buildDiscoveryEndpoints issuer)

/-!
Embedding of `OAuthClient.generatePKCE`.  The Node `crypto` primitives it
calls are standard algorithms: SHA-256 (FIPS 180-4) and the URL-safe
base64 encoding without padding (Node's `base64url`), implemented here
over byte lists (`Nat`s below 256).  The 32 random bytes produced by
`crypto.randomBytes(32)` are a parameter of the embedding.  The digest is
taken over the UTF-8 bytes of the verifier string; base64url output is
ASCII, so those bytes are the character code points.
-/

/-- Reduction to a 32-bit word. -/
def w32 (n : Nat) : Nat := n % 4294967296

/-- Right rotation of a 32-bit word by `k`. -/
def rotr (k n : Nat) : Nat := w32 (n / 2 ^ k + n % 2 ^ k * 2 ^ (32 - k))

/-- Logical right shift. -/
def shr (k n : Nat) : Nat := n / 2 ^ k

/-- Bitwise complement of a 32-bit word. -/
def bnot32 (n : Nat) : Nat := 4294967295 - n

/-- The SHA-256 choice function. -/
def shaCh (x y z : Nat) : Nat := Nat.xor (Nat.land x y) (Nat.land (bnot32 x) z)

/-- The SHA-256 majority function. -/
def shaMaj (x y z : Nat) : Nat :=
  Nat.xor (Nat.xor (Nat.land x y) (Nat.land x z)) (Nat.land y z)

/-- The SHA-256 Σ0 function. -/
def bigSigma0 (x : Nat) : Nat := Nat.xor (Nat.xor (rotr 2 x) (rotr 13 x)) (rotr 22 x)

/-- The SHA-256 Σ1 function. -/
def bigSigma1 (x : Nat) : Nat := Nat.xor (Nat.xor (rotr 6 x) (rotr 11 x)) (rotr 25 x)

/-- The SHA-256 σ0 function. -/
def smallSigma0 (x : Nat) : Nat := Nat.xor (Nat.xor (rotr 7 x) (rotr 18 x)) (shr 3 x)

/-- The SHA-256 σ1 function. -/
def smallSigma1 (x : Nat) : Nat := Nat.xor (Nat.xor (rotr 17 x) (rotr 19 x)) (shr 10 x)

/-- The SHA-256 round constants (FIPS 180-4, in decimal). -/
def shaK : List Nat :=
  [1116352408, 1899447441, 3049323471, 3921009573, 961987163, 1508970993,
   2453635748, 2870763221, 3624381080, 310598401, 607225278, 1426881987,
   1925078388, 2162078206, 2614888103, 3248222580, 3835390401, 4022224774,
   264347078, 604807628, 770255983, 1249150122, 1555081692, 1996064986,
   2554220882, 2821834349, 2952996808, 3210313671, 3336571891, 3584528711,
   113926993, 338241895, 666307205, 773529912, 1294757372, 1396182291,
   1695183700, 1986661051, 2177026350, 2456956037, 2730485921, 2820302411,
   3259730800, 3345764771, 3516065817, 3600352804, 4094571909, 275423344,
   430227734, 506948616, 659060556, 883997877, 958139571, 1322822218,
   1537002063, 1747873779, 1955562222, 2024104815, 2227730452, 2361852424,
   2428436474, 2756734187, 3204031479, 3329325298]

/-- The SHA-256 initial hash value (FIPS 180-4, in decimal). -/
def shaH0 : List Nat :=
  [1779033703, 3144134277, 1013904242, 2773480762,
   1359893119, 2600822924, 528734635, 1541459225]

/-- Big-endian 32-bit words from bytes (input length divisible by 4). -/
def bytesToWords : List Nat → List Nat
  | a :: b :: c :: d :: rest => (((a * 256 + b) * 256 + c) * 256 + d) :: bytesToWords rest
  | _ => []

/-- Big-endian bytes of a 32-bit word. -/
def wordToBytes (n : Nat) : List Nat :=
  [n / 16777216 % 256, n / 65536 % 256, n / 256 % 256, n % 256]

/-- Split a word list into message blocks of 16 words. -/
def wordChunks : List Nat → List (List Nat)
  | [] => []
  | word :: rest =>
    (word :: rest).take 16 :: wordChunks ((word :: rest).drop 16)
termination_by ws => ws.length
decreasing_by
  simp [List.length_drop]
  omega

/-- Extend a 16-word block to the 64-entry message schedule. -/
def extendW (w : List Nat) : Nat → List Nat
  | 0 => w
  | n + 1 =>
    extendW
      (w ++ [w32 (smallSigma1 (w.getD (w.length - 2) 0) + w.getD (w.length - 7) 0 +
                  smallSigma0 (w.getD (w.length - 15) 0) + w.getD (w.length - 16) 0)]) n

/-- One SHA-256 compression round on the working variables `[a,...,h]`. -/
def shaRound (st : List Nat) (k wv : Nat) : List Nat :=
  let a := st.getD 0 0
  let b := st.getD 1 0
  let c := st.getD 2 0
  let d := st.getD 3 0
  let e := st.getD 4 0
  let f := st.getD 5 0
  let g := st.getD 6 0
  let h := st.getD 7 0
  let t1 := w32 (h + bigSigma1 e + shaCh e f g + k + wv)
  let t2 := w32 (bigSigma0 a + shaMaj a b c)
  [w32 (t1 + t2), a, b, c, w32 (d + t1), e, f, g]

/-- Process one 16-word block. -/
def shaChunk (hs chunk : List Nat) : List Nat :=
  let w := extendW chunk 48
  let st := (shaK.zip w).foldl (fun st p => shaRound st p.1 p.2) hs
  (hs.zip st).map (fun p => w32 (p.1 + p.2))

/-- SHA-256 of a byte list (FIPS 180-4), as 32 bytes. -/
def sha256 (msg : List Nat) : List Nat :=
  let padZeros := (64 - (msg.length + 9) % 64) % 64
  let lenBytes := (List.range 8).map (fun i => msg.length * 8 / 2 ^ (8 * (7 - i)) % 256)
  let padded := msg ++ [128] ++ List.replicate padZeros 0 ++ lenBytes
  let hs := (wordChunks (bytesToWords padded)).foldl shaChunk shaH0
  (hs.map wordToBytes).flatten

/-- The URL-safe base64 alphabet. -/
def b64Alphabet : List Char :=
  "ABCDEFGHIJKLMNOPQRSTUVWXYZabcdefghijklmnopqrstuvwxyz0123456789-_".data

/-- The alphabet character for a 6-bit value. -/
def b64Char (n : Nat) : Char := b64Alphabet.getD n 'A'

/-- URL-safe base64 without padding (Node's `base64url`). -/
def base64urlEncode : List Nat → List Char
  | [] => []
  | [a] => [b64Char (a / 4), b64Char (a % 4 * 16)]
  | [a, b] => [b64Char (a / 4), b64Char (a % 4 * 16 + b / 16), b64Char (b % 16 * 4)]
  | a :: b :: c :: rest =>
    b64Char (a / 4) :: b64Char (a % 4 * 16 + b / 16) ::
    b64Char (b % 16 * 4 + c / 64) :: b64Char (c % 64) :: base64urlEncode rest

/-- The UTF-8 bytes of an ASCII string (every base64url output is ASCII). -/
def strUtf8Bytes (s : String) : List Nat := s.data.map Char.toNat

/-- Embedding of `OAuthClient.generatePKCE`, parameterised by the 32 bytes
returned by `crypto.randomBytes(32)`: the verifier is their base64url
encoding, and the challenge is the base64url encoding of the SHA-256
digest of the verifier string. -/
def generatePKCE (randomBytes : List Nat) : String × String :=
  let codeVerifier := String.mk (base64urlEncode randomBytes)
  let codeChallenge := String.mk (base64urlEncode (sha256 (strUtf8Bytes codeVerifier)))
  (codeVerifier, codeChallenge)

/-!
Embedding of the MCP client cache of `mcp_tool` (the `clients` record,
`main`'s get-or-create logic and `scheduleClientCleanup`).  Handles are
identified by `Nat` ids; the handle a cache miss would create (the result
of `createNewClient`) is a parameter.  A scheduled idle timer is modelled
by the possibility of a `timerFire` event at any time; its callback
re-checks `Date.now() - entry.lastUsed >= IDLE_TIMEOUT_MS` before closing,
so a timer made stale by a later touch (which the source also
`clearTimeout`s) acts as a no-op. -/

/-- A cache entry: the client handle and its `lastUsed` instant. -/
structure ClientEntry where
  handle : Nat
  lastUsed : Nat
  deriving DecidableEq, Repr

/-- The `clients` record, keyed by `serverKey`. -/
def ClientPool : Type := List (String × ClientEntry)

/-- The idle timeout: `3 * 60 * 1000` milliseconds. -/
def IDLE_TIMEOUT_MS : Nat := 3 * 60 * 1000

/-- Embedding of the client lookup in `main`: on a miss, create the new
handle and insert it with `lastUsed = now`; on a hit, return the cached
handle and update `lastUsed` (both paths also (re)schedule the cleanup
timer, modelled by later `timerFire` events). -/
def getOrCreateClient (p : ClientPool) (key : String) (now fresh : Nat) :
    Nat × ClientPool :=
  match List.lookup key p with
  | none => (fresh, mapSet p key { handle := fresh, lastUsed := now })
  | some e => (e.handle, mapSet p key { handle := e.handle, lastUsed := now })

/-- Embedding of the `scheduleClientCleanup` callback body firing at `now`:
if the entry still exists and `now - entry.lastUsed >= IDLE_TIMEOUT_MS`,
close it and delete it from the record; otherwise do nothing. -/
def timerFire (p : ClientPool) (key : String) (now : Nat) : ClientPool :=
  match List.lookup key p with
  | some e => if IDLE_TIMEOUT_MS ≤ now - e.lastUsed then mapDelete p key else p
  | none => p

/-!
Map lemmas shared by the token-store and connection-pool claims.
-/

theorem lookup_mapSet_self {α : Type} (m : List (String × α)) (k : String) (v : α) :
    List.lookup k (mapSet m k v) = some v := by
  induction m with
  | nil => simp [mapSet]
  | cons kv rest ih =>
    obtain ⟨k2, v2⟩ := kv
    simp only [mapSet]
    split
    · simp
    · rename_i hne
      have hb : (k == k2) = false := by
        simp only [beq_eq_false_iff_ne]
        exact fun h2 => hne h2.symm
      rw [List.lookup_cons, hb]
      exact ih

theorem lookup_mapSet_ne {α : Type} (m : List (String × α)) (k1 k2 : String) (v : α)
    (h : k1 ≠ k2) : List.lookup k2 (mapSet m k1 v) = List.lookup k2 m := by
  have hb : (k2 == k1) = false := by
    simp only [beq_eq_false_iff_ne]
    exact fun h2 => h h2.symm
  induction m with
  | nil => simp [mapSet, List.lookup_cons, hb]
  | cons kv rest ih =>
    obtain ⟨k3, v3⟩ := kv
    simp only [mapSet]
    split
    · rename_i he
      subst he
      rw [List.lookup_cons, List.lookup_cons, hb]
    · rw [List.lookup_cons, List.lookup_cons]
      cases hbk : (k2 == k3) with
      | true => rfl
      | false => exact ih

theorem mapSet_of_lookup_none {α : Type} {m : List (String × α)} {k : String}
    (h : List.lookup k m = none) (v : α) : mapSet m k v = m ++ [(k, v)] := by
  induction m with
  | nil => simp [mapSet]
  | cons kv rest ih =>
    obtain ⟨k2, v2⟩ := kv
    rw [List.lookup_cons] at h
    cases hbk : (k == k2) with
    | true => rw [hbk] at h; exact absurd h (by simp)
    | false =>
      rw [hbk] at h
      have hne : ¬ (k2 = k) := by
        have : k ≠ k2 := by simpa using hbk
        exact fun h2 => this h2.symm
      simp [mapSet, hne, ih h]

theorem mapDelete_append_of_lookup_none {α : Type} {m : List (String × α)} {k : String}
    (h : List.lookup k m = none) (v : α) : mapDelete (m ++ [(k, v)]) k = m := by
  induction m with
  | nil => simp [mapDelete]
  | cons kv rest ih =>
    obtain ⟨k2, v2⟩ := kv
    rw [List.lookup_cons] at h
    cases hbk : (k == k2) with
    | true => rw [hbk] at h; exact absurd h (by simp)
    | false =>
      rw [hbk] at h
      have hne : ¬ (k2 = k) := by
        have : k ≠ k2 := by simpa using hbk
        exact fun h2 => this h2.symm
      simp [mapDelete, hne, ih h]

theorem lookup_mem_values {α : Type} {m : List (String × α)} {k : String} {v : α}
    (h : List.lookup k m = some v) : v ∈ m.map Prod.snd := by
  induction m with
  | nil => simp at h
  | cons kv rest ih =>
    obtain ⟨k2, v2⟩ := kv
    rw [List.lookup_cons] at h
    cases hbk : (k == k2) with
    | true =>
      rw [hbk] at h
      injection h with h1
      simp [h1]
    | false =>
      rw [hbk] at h
      simp [ih h]

/-- Concatenation with a separator not occurring in the left parts is
injective in all parts. -/
theorem append_colon_inj : ∀ {xs1 xs2 ys1 ys2 : List Char}, ':' ∉ xs1 → ':' ∉ xs2 →
    xs1 ++ ':' :: ys1 = xs2 ++ ':' :: ys2 → xs1 = xs2 ∧ ys1 = ys2 := by
  intro xs1
  induction xs1 with
  | nil =>
    intro xs2 ys1 ys2 h1 h2 he
    cases xs2 with
    | nil => simpa using he
    | cons c rest =>
      simp only [List.nil_append, List.cons_append, List.cons.injEq] at he
      exact absurd (by simp [← he.1]) h2
  | cons c rest ih =>
    intro xs2 ys1 ys2 h1 h2 he
    cases xs2 with
    | nil =>
      simp only [List.nil_append, List.cons_append, List.cons.injEq] at he
      exact absurd (by simp [he.1]) h1
    | cons c2 rest2 =>
      simp only [List.cons_append, List.cons.injEq] at he
      obtain ⟨hc, htail⟩ := he
      have h1' : ':' ∉ rest := fun hm => h1 (List.mem_cons_of_mem _ hm)
      have h2' : ':' ∉ rest2 := fun hm => h2 (List.mem_cons_of_mem _ hm)
      obtain ⟨ha, hb⟩ := ih h1' h2' htail
      exact ⟨by simp [hc, ha], hb⟩

/-- Injectivity of `generateTokenKey` on triples whose first two components
are free of the separator character. -/
theorem generateTokenKey_inj {r1 c1 a1 r2 c2 a2 : String}
    (hr1 : ':' ∉ r1.data) (hr2 : ':' ∉ r2.data) (hc1 : ':' ∉ c1.data) (hc2 : ':' ∉ c2.data)
    (hk : generateTokenKey r1 c1 a1 = generateTokenKey r2 c2 a2) :
    r1 = r2 ∧ c1 = c2 ∧ a1 = a2 := by
  have hd := congrArg String.data hk
  simp only [generateTokenKey, String.data_append] at hd
  have hcolon : (":" : String).data = [':'] := rfl
  simp only [hcolon, List.append_assoc, List.singleton_append] at hd
  obtain ⟨h1, h2⟩ := append_colon_inj hr1 hr2 hd
  obtain ⟨h3, h4⟩ := append_colon_inj hc1 hc2 h2
  exact ⟨String.ext h1, String.ext h3, String.ext h4⟩

/-- C1 counterexample: the triples `("a:b", "c", "d")` and `("a", "b:c", "d")`
are distinct, yet both produce the composite key `"a:b:c:d"`, so storing a
token under the first one creates (overwrites) the record the second one
reads. -/
theorem c1_distinct_triples_collide :
    ("a:b", "c", "d") ≠ (("a", "b:c", "d") : String × String × String) ∧
    generateTokenKey "a:b" "c" "d" = generateTokenKey "a" "b:c" "d" ∧
    getStoredRecord
        (storeToken [] ⟨"tok", "Bearer", none, none, none⟩ "a:b" "c" "d" 0)
        "a" "b:c" "d" ≠
      getStoredRecord [] "a" "b:c" "d" := by
  refine ⟨by decide, by decide, ?_⟩
  decide

/-- C1 (amended): `storeToken` under one triple leaves the record read under
another triple unchanged whenever their composite keys differ; distinct
triples are only guaranteed distinct keys when the `resource` and
`client_id` components contain no `':'` separator character (components
containing `':'` — as URLs do — can collide, as the counterexample shows). -/
theorem c1_storeToken_frame (m : TokenCache) (tr : TokenResponse)
    (r1 c1 a1 r2 c2 a2 : String) (now : Nat) :
    (generateTokenKey r1 c1 a1 ≠ generateTokenKey r2 c2 a2 →
      getStoredRecord (storeToken m tr r1 c1 a1 now) r2 c2 a2 =
        getStoredRecord m r2 c2 a2) ∧
    ((r1, c1, a1) ≠ ((r2, c2, a2) : String × String × String) →
      ':' ∉ r1.data → ':' ∉ r2.data → ':' ∉ c1.data → ':' ∉ c2.data →
      generateTokenKey r1 c1 a1 ≠ generateTokenKey r2 c2 a2) := by
  constructor
  · intro hne
    simp only [storeToken, getStoredRecord]
    exact lookup_mapSet_ne _ _ _ _ hne
  · intro hne hr1 hr2 hc1 hc2 hk
    obtain ⟨h1, h2, h3⟩ := generateTokenKey_inj hr1 hr2 hc1 hc2 hk
    exact hne (by simp [h1, h2, h3])

/-- C1 witness: a store under one colon-free triple does not change what a
different colon-free triple reads. -/
theorem c1_storeToken_frame_witness :
    generateTokenKey "r1" "c1" "a1" ≠ generateTokenKey "r2" "c2" "a2" ∧
    getStoredRecord
        (storeToken [] ⟨"tok", "Bearer", none, none, none⟩ "r1" "c1" "a1" 0)
        "r2" "c2" "a2" =
      getStoredRecord [] "r2" "c2" "a2" :=
  ⟨(c1_storeToken_frame [] ⟨"tok", "Bearer", none, none, none⟩
      "r1" "c1" "a1" "r2" "c2" "a2" 0).2 (by decide)
      (by decide) (by decide) (by decide) (by decide),
   (c1_storeToken_frame [] ⟨"tok", "Bearer", none, none, none⟩
      "r1" "c1" "a1" "r2" "c2" "a2" 0).1
      ((c1_storeToken_frame [] ⟨"tok", "Bearer", none, none, none⟩
          "r1" "c1" "a1" "r2" "c2" "a2" 0).2 (by decide)
          (by decide) (by decide) (by decide) (by decide))⟩

/-- C3: in `getOrObtainAccessToken`, with the clock not running backwards
between step 5 and step 6 and nothing touching the store in between, a
`null` from the first `getValidToken` forces a `null` from the second, so
the refresh branch (and with it `refreshToken` / `updateToken`) is
unreachable. -/
theorem c3_refresh_branch_unreachable (m : TokenCache) (r c a : String)
    (now1 now2 : Nat) (hmono : now1 ≤ now2) :
    ((getValidToken m r c a now1).1 = none → (getValidToken m r c a now2).1 = none) ∧
    refreshBranchTaken m r c a now1 now2 = false := by
  simp only [getValidToken, refreshBranchTaken]
  cases hl : List.lookup (generateTokenKey r c a) m with
  | none => simp [getValidToken, hl]
  | some tok =>
    cases he : tok.expires_at with
    | none => simp [getValidToken, hl, he]
    | some e =>
      by_cases hg : e ≠ 0 ∧ now1 ≥ e
      · have hg2 : e ≠ 0 ∧ now2 ≥ e := ⟨hg.1, le_trans hg.2 hmono⟩
        simp [getValidToken, hl, he, hg, hg2]
      · simp [getValidToken, hl, he, hg]

/-- C3 witness: a concrete instance of the unreachable refresh branch. -/
theorem c3_refresh_branch_unreachable_witness :
    (0 : Nat) ≤ 1 ∧
    (getValidToken [] "r" "c" "a" 1).1 = none ∧
    refreshBranchTaken [] "r" "c" "a" 0 1 = false :=
  ⟨by decide,
   (c3_refresh_branch_unreachable [] "r" "c" "a" 0 1 (by decide)).1 (by decide),
   (c3_refresh_branch_unreachable [] "r" "c" "a" 0 1 (by decide)).2⟩

/-- A stored record carrying the JS-falsy expiry instant `0`. -/
def c8ZeroExpiryToken : StoredToken :=
  { access_token := "tok"
    token_type := "Bearer"
    expires_at := some 0
    refresh_token := none
    scope := none
    resource := "r"
    client_id := "c"
    authorization_server := "a" }

/-- C8 counterexample: a record whose `expires_at` is present (`0`) and not
in the future (`0 ≤ 5`) is nevertheless returned by `getValidToken`, because
the guard `token.expires_at && Date.now() >= token.expires_at` treats the
number `0` as falsy. -/
theorem c8_zero_expiry_returned :
    c8ZeroExpiryToken.expires_at = some 0 ∧ (0 : Nat) ≤ 5 ∧
    (getValidToken [(generateTokenKey "r" "c" "a", c8ZeroExpiryToken)]
        "r" "c" "a" 5).1 = some c8ZeroExpiryToken := by
  refine ⟨rfl, by decide, ?_⟩
  decide

/-- C8 (amended): for a stored record whose `expires_at` is present, nonzero
and not in the future, `getValidToken` returns `none` while leaving the
cache unchanged, and the record stays in the `getAllTokens` listing; a
record whose `expires_at` is absent, zero (treated as absent by the truthy
guard) or in the future is returned. -/
theorem c8_getValidToken_expiry (m : TokenCache) (r c a : String) (now : Nat)
    (tok : StoredToken) (hlook : getStoredRecord m r c a = some tok) :
    (∀ e, tok.expires_at = some e → e ≠ 0 → e ≤ now →
      getValidToken m r c a now = (none, m) ∧ tok ∈ getAllTokens m) ∧
    (tok.expires_at = none ∨ tok.expires_at = some 0 ∨
        (∃ e, tok.expires_at = some e ∧ now < e) →
      (getValidToken m r c a now).1 = some tok) := by
  simp only [getStoredRecord] at hlook
  constructor
  · intro e he hne hpast
    refine ⟨?_, lookup_mem_values hlook⟩
    simp [getValidToken, hlook, he, hne, hpast]
  · intro hcases
    rcases hcases with hnone | hzero | ⟨e, he, hfut⟩
    · simp [getValidToken, hlook, hnone]
    · simp [getValidToken, hlook, hzero]
    · have : ¬ (e ≠ 0 ∧ now ≥ e) := fun hg => absurd hfut (by omega)
      simp [getValidToken, hlook, he, this]

/-- A stored record with a nonzero, already passed expiry instant. -/
def c8ExpiredToken : StoredToken :=
  { access_token := "tok"
    token_type := "Bearer"
    expires_at := some 5
    refresh_token := none
    scope := none
    resource := "r"
    client_id := "c"
    authorization_server := "a" }

/-- C8 witness: the amended claim at a concrete expired record. -/
theorem c8_getValidToken_expiry_witness :
    getValidToken [(generateTokenKey "r" "c" "a", c8ExpiredToken)] "r" "c" "a" 9 =
      (none, [(generateTokenKey "r" "c" "a", c8ExpiredToken)]) ∧
    c8ExpiredToken ∈ getAllTokens [(generateTokenKey "r" "c" "a", c8ExpiredToken)] :=
  (c8_getValidToken_expiry [(generateTokenKey "r" "c" "a", c8ExpiredToken)]
      "r" "c" "a" 9 c8ExpiredToken (by decide)).1 5 (by decide) (by decide) (by decide)

/-- C10: with an absent fingerprint, the first `getOrCreateClient` returns the
fresh handle; a second call inside the idle window returns the same cached
handle (updating `lastUsed` rather than creating a connection), and an
intervening timer fire within the window is a no-op; once the idle timeout
has elapsed with no further use, a timer fire removes the entry and the
next call creates a new handle. -/
theorem c10_pool_idle_lifecycle (p : ClientPool) (key : String)
    (t1 t2 tf h1 h2 : Nat) (hmiss : List.lookup key p = none)
    (h1f : t1 ≤ tf) (hft : tf ≤ t2) (hwin : t2 < t1 + IDLE_TIMEOUT_MS) :
    (getOrCreateClient p key t1 h1).1 = h1 ∧
    timerFire (getOrCreateClient p key t1 h1).2 key tf = (getOrCreateClient p key t1 h1).2 ∧
    (getOrCreateClient (timerFire (getOrCreateClient p key t1 h1).2 key tf) key t2 h2).1 = h1 ∧
    (getOrCreateClient (timerFire (getOrCreateClient p key t1 h1).2 key tf) key t2 h2).2 =
      mapSet (getOrCreateClient p key t1 h1).2 key { handle := h1, lastUsed := t2 } ∧
    (∀ tg h3, t1 + IDLE_TIMEOUT_MS ≤ tg →
      List.lookup key (timerFire (getOrCreateClient p key t1 h1).2 key tg) = none ∧
      (getOrCreateClient (timerFire (getOrCreateClient p key t1 h1).2 key tg) key tg h3).1 = h3) := by
  have hp1 : (getOrCreateClient p key t1 h1).2 =
      mapSet p key { handle := h1, lastUsed := t1 } := by
    simp [getOrCreateClient, hmiss]
  have hfst : (getOrCreateClient p key t1 h1).1 = h1 := by
    simp [getOrCreateClient, hmiss]
  have hlook1 : List.lookup key (getOrCreateClient p key t1 h1).2 =
      some { handle := h1, lastUsed := t1 } := by
    rw [hp1]; exact lookup_mapSet_self _ _ _
  have hnofire : timerFire (getOrCreateClient p key t1 h1).2 key tf =
      (getOrCreateClient p key t1 h1).2 := by
    simp only [timerFire, hlook1]
    have : ¬ (IDLE_TIMEOUT_MS ≤ tf - t1) := by omega
    simp [this]
  refine ⟨hfst, hnofire, ?_, ?_, ?_⟩
  · rw [hnofire]
    generalize hg : (getOrCreateClient p key t1 h1).2 = q1 at hlook1 ⊢
    simp [getOrCreateClient, hlook1]
  · rw [hnofire]
    generalize hg : (getOrCreateClient p key t1 h1).2 = q1 at hlook1 ⊢
    simp [getOrCreateClient, hlook1]
  · intro tg h3 hidle
    have hdel : timerFire (getOrCreateClient p key t1 h1).2 key tg = p := by
      simp only [timerFire, hlook1]
      have hge : IDLE_TIMEOUT_MS ≤ tg - t1 := by omega
      simp only [hge, if_true]
      rw [hp1, mapSet_of_lookup_none hmiss]
      exact mapDelete_append_of_lookup_none hmiss _
    rw [hdel]
    exact ⟨hmiss, by simp [getOrCreateClient, hmiss]⟩

/-- C10 witness: the lifecycle at concrete times and handles. -/
theorem c10_pool_idle_lifecycle_witness :
    (getOrCreateClient [] "k" 0 7).1 = 7 ∧
    (getOrCreateClient (timerFire (getOrCreateClient [] "k" 0 7).2 "k" 5) "k" 10 8).1 = 7 ∧
    List.lookup "k" (timerFire (getOrCreateClient [] "k" 0 7).2 "k" 180000) = none ∧
    (getOrCreateClient (timerFire (getOrCreateClient [] "k" 0 7).2 "k" 180000)
        "k" 180000 9).1 = 9 :=
  ⟨(c10_pool_idle_lifecycle [] "k" 0 10 5 7 8 (by decide) (by decide) (by decide)
      (by decide)).1,
   (c10_pool_idle_lifecycle [] "k" 0 10 5 7 8 (by decide) (by decide) (by decide)
      (by decide)).2.2.1,
   ((c10_pool_idle_lifecycle [] "k" 0 10 5 7 8 (by decide) (by decide) (by decide)
      (by decide)).2.2.2.2 180000 9 (by decide)).1,
   ((c10_pool_idle_lifecycle [] "k" 0 10 5 7 8 (by decide) (by decide) (by decide)
      (by decide)).2.2.2.2 180000 9 (by decide)).2⟩

theorem discoverASLoop_skip_invalid (w : ASWorld) (e : String) (rest : List String)
    (m : ASMeta) (hf : w.fetchAS e = some m)
    (hv : validateAuthServerMetadata m = false) :
    discoverASLoop w (e :: rest) = discoverASLoop w rest := by
  simp [discoverASLoop, hf, hv]

theorem discoverASLoop_all_invalid (w : ASWorld) (es : List String)
    (h : ∀ e ∈ es, ∃ m, w.fetchAS e = some m ∧ validateAuthServerMetadata m = false) :
    discoverASLoop w es = none := by
  induction es with
  | nil => rfl
  | cons e rest ih =>
    obtain ⟨m, hf, hv⟩ := h e (by simp)
    rw [discoverASLoop_skip_invalid w e rest m hf hv]
    exact ih (fun e2 he2 => h e2 (by simp [he2]))

theorem discoverASLoop_some_valid (w : ASWorld) (es : List String) (m : ASMeta)
    (h : discoverASLoop w es = some m) : validateAuthServerMetadata m = true := by
  induction es with
  | nil => simp [discoverASLoop] at h
  | cons e rest ih =>
    simp only [discoverASLoop] at h
    split at h
    · split at h
      · rename_i hv
        injection h with h1
        rw [← h1]; exact hv
      · exact ih h
    · exact ih h

/-- C5: `discoverAuthorizationServer` skips a candidate whose successfully
fetched metadata fails any of the three validation checks (truthy
`authorization_endpoint`, truthy `token_endpoint`, `"S256"` among
`code_challenge_methods_supported`); when every candidate endpoint responds
successfully but with invalid metadata, the whole discovery fails; and any
returned metadata passes all three checks. -/
theorem c5_discover_requires_validation (w : ASWorld) (u : UrlParts) :
    (∀ e rest m, w.fetchAS e = some m → validateAuthServerMetadata m = false →
      discoverASLoop w (e :: rest) = discoverASLoop w rest) ∧
    ((∀ e ∈ buildDiscoveryEndpoints u, ∃ m, w.fetchAS e = some m ∧
        validateAuthServerMetadata m = false) →
      discoverAuthorizationServer w u = none) ∧
    (∀ m, discoverAuthorizationServer w u = some m →
      truthyS m.authorization_endpoint = true ∧ truthyS m.token_endpoint = true ∧
      ∃ l, m.code_challenge_methods_supported = some l ∧ "S256" ∈ l) := by
  refine ⟨fun e rest m hf hv => discoverASLoop_skip_invalid w e rest m hf hv,
    fun h => discoverASLoop_all_invalid w _ h, fun m hm => ?_⟩
  have hv := discoverASLoop_some_valid w _ m hm
  simp only [validateAuthServerMetadata, Bool.and_eq_true] at hv
  obtain ⟨⟨h1, h2⟩, h3⟩ := hv
  refine ⟨h1, h2, ?_⟩
  cases hc : m.code_challenge_methods_supported with
  | none => rw [hc] at h3; simp at h3
  | some l =>
    rw [hc] at h3
    exact ⟨l, rfl, by simpa using h3⟩

/-- Authorization server metadata that responds successfully but advertises
no S256 PKCE support. -/
def c5NoS256Meta : ASMeta :=
  { issuer := some "https://as.example"
    authorization_endpoint := some "https://as.example/authorize"
    token_endpoint := some "https://as.example/token"
    registration_endpoint := none
    code_challenge_methods_supported := some ["plain"] }

/-- A network in which every endpoint responds with the S256-less metadata. -/
def c5World : ASWorld := ⟨fun _ => some c5NoS256Meta⟩

/-- C5 witness: every candidate answers successfully, yet discovery fails
because `"S256"` is missing. -/
theorem c5_discover_requires_validation_witness :
    discoverAuthorizationServer c5World ⟨"https://as.example", "/"⟩ = none :=
  (c5_discover_requires_validation c5World ⟨"https://as.example", "/"⟩).2.1
    (fun e _ => ⟨c5NoS256Meta, rfl, by decide⟩)

/-- C4: `discoverProtectedResourceMetadata` is strictly sequential and
short-circuiting.  When the direct well-known fetch (step 1) yields valid
metadata, the result is that metadata and the only request issued is the
step-1 URL — no 401-challenge or fallback-path request is made.  When step
1 fails (fetch failure or invalid body) and the 401-challenge step yields
valid metadata via the header-advertised URL, the requests are exactly the
step-1 URL, the resource URL and that metadata URL — no fallback-path
request is made. -/
theorem c4_discovery_short_circuits (w : DiscWorld) (u : UrlParts) :
    (∀ m, w.fetchMeta (u.origin ++ "/.well-known/oauth-protected-resource") = some m →
      m.authorization_servers ≠ [] →
      discoverProtectedResourceMetadata w u =
        (some m, [u.origin ++ "/.well-known/oauth-protected-resource"])) ∧
    (∀ hv mu m2,
      (w.fetchMeta (u.origin ++ "/.well-known/oauth-protected-resource") = none ∨
       (∃ m0, w.fetchMeta (u.origin ++ "/.well-known/oauth-protected-resource") = some m0 ∧
          m0.authorization_servers = [])) →
      w.fetchResource u.full = some (401, some hv) → hv ≠ "" →
      extractMetadataUrlFromWwwAuth hv = some mu →
      w.fetchMeta mu = some m2 → m2.authorization_servers ≠ [] →
      discoverProtectedResourceMetadata w u =
        (some m2, [u.origin ++ "/.well-known/oauth-protected-resource", u.full, mu])) := by
  constructor
  · intro m hf hne
    have hie : m.authorization_servers.isEmpty = false := by
      cases hm : m.authorization_servers with
      | nil => exact absurd hm hne
      | cons x xs => simp
    simp [discoverProtectedResourceMetadata, hf, hie]
  · intro hv mu m2 hstep1 hres hne hex hf2 has
    have hie2 : m2.authorization_servers.isEmpty = false := by
      cases hm : m2.authorization_servers with
      | nil => exact absurd hm has
      | cons x xs => simp
    have hstep2 : discoverStep2 w u [u.origin ++ "/.well-known/oauth-protected-resource"] =
        (some m2, [u.origin ++ "/.well-known/oauth-protected-resource", u.full, mu]) := by
      simp [discoverStep2, hres, hne, hex, hf2, hie2]
    rcases hstep1 with hf1 | ⟨m0, hf1, h0⟩
    · simp [discoverProtectedResourceMetadata, hf1, hstep2]
    · have hie0 : m0.authorization_servers.isEmpty = true := by simp [h0]
      simp [discoverProtectedResourceMetadata, hf1, hie0, hstep2]

/-- The resource metadata served by the witness network. -/
def c4Meta : PRMeta := ⟨["https://as.example"]⟩

/-- A network whose direct well-known endpoint answers with valid metadata. -/
def c4World : DiscWorld :=
  { fetchMeta := fun url =>
      if url = "https://rs.example/.well-known/oauth-protected-resource" then some c4Meta
      else none
    fetchResource := fun _ => some (200, none) }

/-- C4 witness: with a successful direct step, exactly one request is made. -/
theorem c4_discovery_short_circuits_witness :
    discoverProtectedResourceMetadata c4World ⟨"https://rs.example", "/mcp"⟩ =
      (some c4Meta, ["https://rs.example/.well-known/oauth-protected-resource"]) :=
  (c4_discovery_short_circuits c4World ⟨"https://rs.example", "/mcp"⟩).1 c4Meta
    (by decide) (by decide)

theorem getD_mem_of_default_mem {l : List Char} {d : Char} (h : d ∈ l) (n : Nat) :
    l.getD n d ∈ l := by
  by_cases hn : n < l.length
  · exact List.getD_eq_getElem l d hn ▸ List.getElem_mem hn
  · rw [List.getD_eq_default l d (by omega)]
    exact h

theorem b64Char_mem (n : Nat) : b64Char n ∈ b64Alphabet :=
  getD_mem_of_default_mem (by decide) n

theorem base64urlEncode_chars (bs : List Nat) :
    ∀ c ∈ base64urlEncode bs, c ∈ b64Alphabet := by
  induction bs using base64urlEncode.induct with
  | case1 =>
    intro c hc
    simp [base64urlEncode] at hc
  | case2 a =>
    intro c hc
    simp only [base64urlEncode, List.mem_cons, List.not_mem_nil, or_false] at hc
    rcases hc with h | h <;> exact h ▸ b64Char_mem _
  | case3 a b =>
    intro c hc
    simp only [base64urlEncode, List.mem_cons, List.not_mem_nil, or_false] at hc
    rcases hc with h | h | h <;> exact h ▸ b64Char_mem _
  | case4 a b c2 rest ih =>
    intro c hc
    simp only [base64urlEncode, List.mem_cons] at hc
    rcases hc with h | h | h | h | h
    · exact h ▸ b64Char_mem _
    · exact h ▸ b64Char_mem _
    · exact h ▸ b64Char_mem _
    · exact h ▸ b64Char_mem _
    · exact ih c h

/-- C7: for any 32 random bytes, the verifier is their URL-safe base64
encoding, the challenge is the URL-safe base64 encoding of the SHA-256
digest of the verifier string (its UTF-8 bytes, not the raw random bytes),
and both strings use only the URL-safe alphabet with no `=` padding. -/
theorem c7_generatePKCE_shape (r : List Nat) (hlen : r.length = 32) :
    (generatePKCE r).1 = String.mk (base64urlEncode r) ∧
    (generatePKCE r).2 =
      String.mk (base64urlEncode (sha256 (strUtf8Bytes (generatePKCE r).1))) ∧
    (∀ c ∈ (generatePKCE r).1.data, c ∈ b64Alphabet) ∧
    (∀ c ∈ (generatePKCE r).2.data, c ∈ b64Alphabet) ∧
    '=' ∉ (generatePKCE r).1.data ∧ '=' ∉ (generatePKCE r).2.data := by
  refine ⟨rfl, rfl, ?_, ?_, ?_, ?_⟩
  · intro c hc
    exact base64urlEncode_chars r c hc
  · intro c hc
    exact base64urlEncode_chars _ c hc
  · intro hc
    have := base64urlEncode_chars r _ hc
    simp [b64Alphabet] at this
  · intro hc
    have := base64urlEncode_chars _ _ hc
    simp [b64Alphabet] at this

/-- C7 witness: the shape facts at a concrete 32-byte input. -/
theorem c7_generatePKCE_shape_witness :
    (List.replicate 32 0).length = 32 ∧
    (generatePKCE (List.replicate 32 0)).2 =
      String.mk (base64urlEncode
        (sha256 (strUtf8Bytes (generatePKCE (List.replicate 32 0)).1))) ∧
    '=' ∉ (generatePKCE (List.replicate 32 0)).1.data :=
  ⟨by decide,
   (c7_generatePKCE_shape (List.replicate 32 0) (by decide)).2.1,
   (c7_generatePKCE_shape (List.replicate 32 0) (by decide)).2.2.2.2.1⟩

set_option maxRecDepth 8192 in
/-- C6: the two specified headers each parse to a single Bearer challenge,
and `resource_metadata` is extracted exactly as the quoted URL. -/
theorem c6_concrete_headers_extract :
    parseAuthChallenges "Bearer error=\"invalid_request\", error_description=\"No access token was provided in this request\", resource_metadata=\"https://api.example.com/.well-known/oauth-protected-resource/mcp/\"" =
      [("Bearer",
        [("error", "invalid_request"),
         ("error_description", "No access token was provided in this request"),
         ("resource_metadata", "https://api.example.com/.well-known/oauth-protected-resource/mcp/")])] ∧
    extractMetadataUrlFromWwwAuth "Bearer error=\"invalid_request\", error_description=\"No access token was provided in this request\", resource_metadata=\"https://api.example.com/.well-known/oauth-protected-resource/mcp/\"" =
      some "https://api.example.com/.well-known/oauth-protected-resource/mcp/" ∧
    parseAuthChallenges "Bearer realm=\"https://example.com\", resource_metadata=\"https://example.com/.well-known/oauth-protected-resource\"" =
      [("Bearer",
        [("realm", "https://example.com"),
         ("resource_metadata", "https://example.com/.well-known/oauth-protected-resource")])] ∧
    extractMetadataUrlFromWwwAuth "Bearer realm=\"https://example.com\", resource_metadata=\"https://example.com/.well-known/oauth-protected-resource\"" =
      some "https://example.com/.well-known/oauth-protected-resource" := by
  refine ⟨by decide, by decide, by decide, by decide⟩

/-- C9: `parseAuthChallenges` is total by construction and returns the empty
sequence exactly when the scheme-regex scan finds no match and the header
does not start (case-insensitively) with `bearer`; when the scan finds no
match but the header does start with `bearer`, the result is the single
Bearer fallback challenge whose parameters come from the whole remainder
after the first six characters. -/
theorem c9_parse_never_fails (s : String) :
    (parseAuthChallenges s = [] ↔
      (schemeScan true s.data = [] ∧
       leadsWith "bearer".data (s.data.map Char.toLower) = false)) ∧
    (schemeScan true s.data = [] →
      leadsWith "bearer".data (s.data.map Char.toLower) = true →
      parseAuthChallenges s = [("Bearer", paramScan (trimWs (s.data.drop 6)))]) := by
  constructor
  · cases hsc : schemeScan true s.data with
    | nil =>
      cases hb : leadsWith "bearer".data (s.data.map Char.toLower) with
      | true => simp [parseAuthChallenges, hsc, hb]
      | false => simp [parseAuthChallenges, hsc, hb]
    | cons ch rest => simp [parseAuthChallenges, hsc]
  · intro hsc hb
    simp [parseAuthChallenges, hsc, hb]

/-- C9 witness: the malformed header `bearerx` has no regex match yet parses
to the single fallback Bearer challenge. -/
theorem c9_parse_never_fails_witness :
    schemeScan true "bearerx".data = [] ∧
    leadsWith "bearer".data ("bearerx".data.map Char.toLower) = true ∧
    parseAuthChallenges "bearerx" = [("Bearer", paramScan (trimWs ("bearerx".data.drop 6)))] :=
  ⟨by decide, by decide, (c9_parse_never_fails "bearerx").2 (by decide) (by decide)⟩

/-- C2 counterexample: in `Bearer realm="a, b c", resource_metadata="u"` the
quoted `realm` value contains a comma followed by a token and a space, which
the scheme-boundary lookahead mistakes for the start of a new challenge: the
parse splits inside the quotes, `realm` comes back as the mangled `"a`, and
`resource_metadata` lands under a bogus challenge with scheme `b` — so a
quote-enclosed parameter value is not always extracted verbatim. -/
theorem c2_quoted_comma_value_split :
    parseAuthChallenges "Bearer realm=\"a, b c\", resource_metadata=\"u\"" =
      [("Bearer", [("realm", "\"a")]), ("b", [("resource_metadata", "u")])] ∧
    ∀ ch ∈ parseAuthChallenges "Bearer realm=\"a, b c\", resource_metadata=\"u\"",
      ¬ getParam ch.2 "realm" = some "a, b c" := by
  exact ⟨by decide, by decide⟩

/-- A parameter text is clean when no suffix of it begins with a scheme
boundary (a comma followed by optional whitespace, a token and a whitespace
character) and it contains no line terminator: on such text the lazy group
of the scheme regex runs to the end of the header. -/
def cleanTail : List Char → Bool
  | [] => true
  | c :: rest => !boundaryMatch (c :: rest) && !isNlChar c && cleanTail rest

theorem cleanTail_lazyStop {cs : List Char} (h : cleanTail cs = true) :
    lazyStop cs = some (cs, []) := by
  induction cs with
  | nil => rfl
  | cons c rest ih =>
    simp only [cleanTail, Bool.and_eq_true, Bool.not_eq_true'] at h
    obtain ⟨⟨hb, hn⟩, hc⟩ := h
    simp [lazyStop, hb, hn, ih hc]

theorem takeWhile_notQuote_append {v rest : List Char} (hv : '"' ∉ v) :
    (v ++ '"' :: rest).takeWhile isNotQuote = v := by
  induction v with
  | nil => simp [List.takeWhile, isNotQuote]
  | cons c cs ih =>
    have hc : isNotQuote c = true := by
      simp only [isNotQuote, Bool.not_eq_true']
      simp only [List.mem_cons, not_or] at hv
      exact decide_eq_false (fun he => hv.1 he.symm)
    simp only [List.cons_append, List.takeWhile_cons_of_pos hc]
    rw [ih (fun hm => hv (List.mem_cons_of_mem _ hm))]

theorem dropWhile_notQuote_append {v rest : List Char} (hv : '"' ∉ v) :
    (v ++ '"' :: rest).dropWhile isNotQuote = '"' :: rest := by
  induction v with
  | nil => simp [List.dropWhile, isNotQuote]
  | cons c cs ih =>
    have hc : isNotQuote c = true := by
      simp only [isNotQuote, Bool.not_eq_true']
      simp only [List.mem_cons, not_or] at hv
      exact decide_eq_false (fun he => hv.1 he.symm)
    simp only [List.cons_append, List.dropWhile_cons_of_pos hc]
    exact ih (fun hm => hv (List.mem_cons_of_mem _ hm))

theorem contains_quote_append (v rest : List Char) :
    (v ++ '"' :: rest).contains '"' = true := by
  have : ('"' : Char) ∈ v ++ '"' :: rest := by simp
  exact List.elem_eq_true_of_mem this

theorem valueMatch_quoted {v rest : List Char} (hv : '"' ∉ v) :
    valueMatch ('"' :: (v ++ '"' :: rest)) = some (String.mk v, rest) := by
  simp only [valueMatch, if_pos rfl, contains_quote_append, if_true,
    takeWhile_notQuote_append hv, dropWhile_notQuote_append hv, List.drop_succ_cons,
    List.drop_zero]

theorem takeWhile_keyChar_append (ks rest : List Char)
    (hks : ∀ c ∈ ks, isKeyChar c = true) :
    (ks ++ '=' :: rest).takeWhile isKeyChar = ks := by
  induction ks with
  | nil => simp [List.takeWhile, isKeyChar, isAlphaChar, isDigitChar]
  | cons c cs ih =>
    simp only [List.cons_append, List.takeWhile_cons_of_pos (hks c (by simp))]
    rw [ih (fun c2 hm => hks c2 (by simp [hm]))]

theorem dropWhile_keyChar_append (ks rest : List Char)
    (hks : ∀ c ∈ ks, isKeyChar c = true) :
    (ks ++ '=' :: rest).dropWhile isKeyChar = '=' :: rest := by
  induction ks with
  | nil => simp [List.dropWhile, isKeyChar, isAlphaChar, isDigitChar]
  | cons c cs ih =>
    simp only [List.cons_append, List.dropWhile_cons_of_pos (hks c (by simp))]
    exact ih (fun c2 hm => hks c2 (by simp [hm]))

/-- A quoted-parameter match at the head of the input, for an alphabetic key
and a quote-free value. -/
theorem tryParam_quoted (a : Char) (ks v rest : List Char)
    (ha : isAlphaChar a = true) (hks : ∀ c ∈ ks, isKeyChar c = true)
    (hv : '"' ∉ v) :
    tryParam (a :: (ks ++ '=' :: '"' :: (v ++ '"' :: rest))) =
      some ((String.mk (a :: ks), String.mk v), rest) := by
  have hkt := takeWhile_keyChar_append ks ('"' :: (v ++ '"' :: rest)) hks
  have hkd := dropWhile_keyChar_append ks ('"' :: (v ++ '"' :: rest)) hks
  have hwq : isWsChar '=' = false := by decide
  have hwq2 : isWsChar '"' = false := by decide
  simp only [tryParam, ha, if_true, hkt, hkd,
    List.dropWhile_cons_of_neg (by simp [hwq] : ¬ isWsChar '=' = true),
    List.dropWhile_cons_of_neg (by simp [hwq2] : ¬ isWsChar '"' = true),
    valueMatch_quoted hv]

theorem cleanTail_cons_elim {c : Char} {cs : List Char}
    (h : cleanTail (c :: cs) = true) :
    boundaryMatch (c :: cs) = false ∧ isNlChar c = false ∧ cleanTail cs = true := by
  simp only [cleanTail, Bool.and_eq_true, Bool.not_eq_true'] at h
  exact ⟨h.1.1, h.1.2, h.2⟩

/-- C2 (amended): a quote-enclosed parameter value is extracted verbatim —
commas and spaces included — provided no part of the parameter text matches
the scheme-boundary lookahead (a comma followed by a token and whitespace)
and contains no line terminator; under that proviso, for every quote-free
`v` and `u`, `Bearer realm="<v>", resource_metadata="<u>"` parses to a
single Bearer challenge with `realm = v` and `resource_metadata = u`
unaltered.  (Without the proviso the claim fails, see the counterexample:
the boundary lookahead splits inside the quotes.) -/
theorem c2_quoted_values_verbatim (v u : String)
    (hv : '"' ∉ v.data) (hu : '"' ∉ u.data)
    (hclean :
      cleanTail ("realm=\"" ++ v ++ "\", resource_metadata=\"" ++ u ++ "\"").data = true) :
    parseAuthChallenges ("Bearer realm=\"" ++ v ++ "\", resource_metadata=\"" ++ u ++ "\"") =
      [("Bearer", [("realm", v), ("resource_metadata", u)])] ∧
    getParam [("realm", v), ("resource_metadata", u)] "realm" = some v ∧
    getParam [("realm", v), ("resource_metadata", u)] "resource_metadata" = some u := by
  have hdataP : ("realm=\"" ++ v ++ "\", resource_metadata=\"" ++ u ++ "\"").data =
      'r' :: 'e' :: 'a' :: 'l' :: 'm' :: '=' :: '"' ::
        (v.data ++ '"' :: ',' :: ' ' :: 'r' :: 'e' :: 's' :: 'o' :: 'u' :: 'r' :: 'c' :: 'e' :: '_' ::
          'm' :: 'e' :: 't' :: 'a' :: 'd' :: 'a' :: 't' :: 'a' :: '=' :: '"' :: (u.data ++ ['"'])) := by
    simp only [String.data_append, List.append_assoc]
    rfl
  have hdata : ("Bearer realm=\"" ++ v ++ "\", resource_metadata=\"" ++ u ++ "\"").data =
      'B' :: 'e' :: 'a' :: 'r' :: 'e' :: 'r' :: ' ' :: 'r' :: 'e' :: 'a' :: 'l' :: 'm' :: '=' :: '"' ::
        (v.data ++ '"' :: ',' :: ' ' :: 'r' :: 'e' :: 's' :: 'o' :: 'u' :: 'r' :: 'c' :: 'e' :: '_' ::
          'm' :: 'e' :: 't' :: 'a' :: 'd' :: 'a' :: 't' :: 'a' :: '=' :: '"' :: (u.data ++ ['"'])) := by
    simp only [String.data_append, List.append_assoc]
    rfl
  rw [hdataP] at hclean
  obtain ⟨hb1, hn1, hc1⟩ := cleanTail_cons_elim hclean
  have hlt : lazyTake ('r' :: 'e' :: 'a' :: 'l' :: 'm' :: '=' :: '"' ::
      (v.data ++ '"' :: ',' :: ' ' :: 'r' :: 'e' :: 's' :: 'o' :: 'u' :: 'r' :: 'c' :: 'e' :: '_' ::
        'm' :: 'e' :: 't' :: 'a' :: 'd' :: 'a' :: 't' :: 'a' :: '=' :: '"' :: (u.data ++ ['"']))) =
      some ('r' :: 'e' :: 'a' :: 'l' :: 'm' :: '=' :: '"' ::
        (v.data ++ '"' :: ',' :: ' ' :: 'r' :: 'e' :: 's' :: 'o' :: 'u' :: 'r' :: 'c' :: 'e' :: '_' ::
          'm' :: 'e' :: 't' :: 'a' :: 'd' :: 'a' :: 't' :: 'a' :: '=' :: '"' :: (u.data ++ ['"'])), []) := by
    simp only [lazyTake, hn1, Bool.false_eq_true, if_false]
    rw [cleanTail_lazyStop hc1]
  have h1 : tryParam ('r' :: 'e' :: 'a' :: 'l' :: 'm' :: '=' :: '"' ::
      (v.data ++ '"' :: ',' :: ' ' :: 'r' :: 'e' :: 's' :: 'o' :: 'u' :: 'r' :: 'c' :: 'e' :: '_' ::
        'm' :: 'e' :: 't' :: 'a' :: 'd' :: 'a' :: 't' :: 'a' :: '=' :: '"' :: (u.data ++ ['"']))) =
      some (("realm", String.mk v.data),
        ',' :: ' ' :: 'r' :: 'e' :: 's' :: 'o' :: 'u' :: 'r' :: 'c' :: 'e' :: '_' ::
          'm' :: 'e' :: 't' :: 'a' :: 'd' :: 'a' :: 't' :: 'a' :: '=' :: '"' :: (u.data ++ ['"'])) :=
    tryParam_quoted 'r' ['e','a','l','m'] v.data
      (',' :: ' ' :: 'r' :: 'e' :: 's' :: 'o' :: 'u' :: 'r' :: 'c' :: 'e' :: '_' ::
        'm' :: 'e' :: 't' :: 'a' :: 'd' :: 'a' :: 't' :: 'a' :: '=' :: '"' :: (u.data ++ ['"']))
      (by decide) (by decide) hv
  have h4 : tryParam ('r' :: 'e' :: 's' :: 'o' :: 'u' :: 'r' :: 'c' :: 'e' :: '_' ::
      'm' :: 'e' :: 't' :: 'a' :: 'd' :: 'a' :: 't' :: 'a' :: '=' :: '"' :: (u.data ++ ['"'])) =
      some (("resource_metadata", String.mk u.data), []) := by
    have h5 := tryParam_quoted 'r'
      ['e','s','o','u','r','c','e','_','m','e','t','a','d','a','t','a'] u.data []
      (by decide) (by decide) hu
    simpa using h5
  have hps : paramScan ('r' :: 'e' :: 'a' :: 'l' :: 'm' :: '=' :: '"' ::
      (v.data ++ '"' :: ',' :: ' ' :: 'r' :: 'e' :: 's' :: 'o' :: 'u' :: 'r' :: 'c' :: 'e' :: '_' ::
        'm' :: 'e' :: 't' :: 'a' :: 'd' :: 'a' :: 't' :: 'a' :: '=' :: '"' :: (u.data ++ ['"']))) =
      [("realm", v), ("resource_metadata", u)] := by
    rw [paramScan_cons, h1]
    show ("realm", String.mk v.data) :: paramScan (',' :: ' ' :: 'r' :: 'e' :: 's' :: 'o' :: 'u' :: 'r' ::
      'c' :: 'e' :: '_' :: 'm' :: 'e' :: 't' :: 'a' :: 'd' :: 'a' :: 't' :: 'a' :: '=' :: '"' :: (u.data ++ ['"'])) = _
    rw [paramScan_cons]
    show ("realm", String.mk v.data) :: paramScan (' ' :: 'r' :: 'e' :: 's' :: 'o' :: 'u' :: 'r' ::
      'c' :: 'e' :: '_' :: 'm' :: 'e' :: 't' :: 'a' :: 'd' :: 'a' :: 't' :: 'a' :: '=' :: '"' :: (u.data ++ ['"'])) = _
    rw [paramScan_cons]
    show ("realm", String.mk v.data) :: paramScan ('r' :: 'e' :: 's' :: 'o' :: 'u' :: 'r' ::
      'c' :: 'e' :: '_' :: 'm' :: 'e' :: 't' :: 'a' :: 'd' :: 'a' :: 't' :: 'a' :: '=' :: '"' :: (u.data ++ ['"'])) = _
    rw [paramScan_cons, h4]
    rfl
  have htc : tryChallenge true ('B' :: 'e' :: 'a' :: 'r' :: 'e' :: 'r' :: ' ' :: 'r' :: 'e' :: 'a' :: 'l' ::
      'm' :: '=' :: '"' :: (v.data ++ '"' :: ',' :: ' ' :: 'r' :: 'e' :: 's' :: 'o' :: 'u' :: 'r' :: 'c' :: 'e' ::
        '_' :: 'm' :: 'e' :: 't' :: 'a' :: 'd' :: 'a' :: 't' :: 'a' :: '=' :: '"' :: (u.data ++ ['"']))) =
      some (("Bearer", [("realm", v), ("resource_metadata", u)]), []) := by
    have hks1 : tryKsGo [' ']
        ('r' :: 'e' :: 'a' :: 'l' :: 'm' :: '=' :: '"' ::
          (v.data ++ '"' :: ',' :: ' ' :: 'r' :: 'e' :: 's' :: 'o' :: 'u' :: 'r' :: 'c' :: 'e' :: '_' ::
            'm' :: 'e' :: 't' :: 'a' :: 'd' :: 'a' :: 't' :: 'a' :: '=' :: '"' :: (u.data ++ ['"']))) 1 =
        some ('r' :: 'e' :: 'a' :: 'l' :: 'm' :: '=' :: '"' ::
          (v.data ++ '"' :: ',' :: ' ' :: 'r' :: 'e' :: 's' :: 'o' :: 'u' :: 'r' :: 'c' :: 'e' :: '_' ::
            'm' :: 'e' :: 't' :: 'a' :: 'd' :: 'a' :: 't' :: 'a' :: '=' :: '"' :: (u.data ++ ['"'])), []) := by
      simp [tryKsGo, hlt]
    simp only [tryChallenge, afterChalPrefix, tryKs]
    simp [hks1, hps, isAlphaChar, isSchemeChar, isWsChar, isNlChar, isDigitChar,
      List.takeWhile_cons, List.dropWhile_cons]
  have hscan : schemeScan true ('B' :: 'e' :: 'a' :: 'r' :: 'e' :: 'r' :: ' ' :: 'r' :: 'e' :: 'a' :: 'l' ::
      'm' :: '=' :: '"' :: (v.data ++ '"' :: ',' :: ' ' :: 'r' :: 'e' :: 's' :: 'o' :: 'u' :: 'r' :: 'c' :: 'e' ::
        '_' :: 'm' :: 'e' :: 't' :: 'a' :: 'd' :: 'a' :: 't' :: 'a' :: '=' :: '"' :: (u.data ++ ['"']))) =
      [("Bearer", [("realm", v), ("resource_metadata", u)])] := by
    rw [schemeScan_cons, htc]
    show ("Bearer", [("realm", v), ("resource_metadata", u)]) :: schemeScan false [] = _
    rfl
  refine ⟨?_, ?_, ?_⟩
  · simp only [parseAuthChallenges]
    rw [hdata, hscan]
    simp
  · simp [getParam, List.lookup]
  · simp [getParam, List.lookup]

/-- C2 witness: a quoted `realm` value containing a comma and a space is
extracted verbatim when it matches no scheme boundary. -/
theorem c2_quoted_values_verbatim_witness :
    cleanTail ("realm=\"" ++ "a, b" ++ "\", resource_metadata=\"" ++ "https://x" ++ "\"").data = true ∧
    parseAuthChallenges ("Bearer realm=\"" ++ "a, b" ++ "\", resource_metadata=\"" ++ "https://x" ++ "\"") =
      [("Bearer", [("realm", "a, b"), ("resource_metadata", "https://x")])] :=
  ⟨by decide,
   (c2_quoted_values_verbatim "a, b" "https://x" (by decide) (by decide) (by decide)).1⟩
